import Mathlib

/-! # Heat-map relaxation engine

A shallow embedding of `calculator.c` (`cyclicCheck`, `calculate`) and of the two
pieces of `reader.c` that decide what the engine is handed (the comparator `helper`
and the dimension check of `main`), together with the properties that the
specification states.

Modelling conventions.

* `double` cell values are exact numbers: an arbitrary linear ordered ring `α`
  (a field where a kernel divides).
* `double **grid` is the map `Nat → Nat → α` from (row, column) to the cell value;
  a store `grid[i][j] = v` is `Grid.write`.  The code only touches cells
  `(a, b)` with `a < m` and `b < n`.
* `size_t n, m` are natural numbers within the range of `int`, where the casts
  `(int)m`, `(int)n` of the loops are the identity; the loop variables `i`, `j`
  range over `0 .. m-1` and `0 .. n-1`.
* `source_point *sources` is given by two arguments: the list `sources` of its
  `num_sources` entries, and `slots`, what the memory behind the last entry holds
  (`slots k` is `sources[num_sources + k]`).  The code never looks at `num_sources`:
  it reads `sources[counter]` at every cell, and when the cursor has left the entries
  it compares with the slot it finds.  The array that `main` hands over has one such
  slot, which `main` never initialises.
* The `do … while` loop of `calculate` is run with a fuel argument (an upper bound
  on the number of sweeps); `none` means that the fuel did not suffice.
* `int` subtraction in `helper` is exact subtraction followed by `wrapInt`.
* A line of the input file is a `String`; `strcmp(a, b) == 0` is equality of strings.
  `sscanf`, `fgets` and `qsort` belong to the C library: the dimension check takes
  their results as arguments, and a sequence sorted by `qsort` is one that is
  pairwise ordered by the comparator.
-/

namespace HeatMap

variable {α : Type}

/-- Modelled from the spec: the `source_point` record of the header `calculator.h`
(row `x`, column `y`, both `int`, and the fixed `value`), as `newSource` fills it. -/
structure source_point (α : Type) where
  x : Int
  y : Int
  value : α

/-- The grid `double **grid`: row index, then column index. -/
abbrev Grid (α : Type) := Nat → Nat → α

/-- The store `grid[i][j] = v`. -/
def Grid.write (g : Grid α) (i j : Nat) (v : α) : Grid α :=
  fun a b => if a = i ∧ b = j then v else g a b

/-- The four locals `top`, `bottom`, `right`, `left` of the inner loop body. -/
structure Neighbours (α : Type) where
  top : α
  bottom : α
  right : α
  left : α

/-- `cyclicCheck`: in the non-cyclic mode (`is_cyclic == 0`) zero the neighbours that
lie across an edge.  The two tests of an axis are an `if … else if` chain. -/
def cyclicCheck [Zero α] (n m : Nat) (is_cyclic : Int) (i j : Int)
    (v : Neighbours α) : Neighbours α :=
  if is_cyclic = 0 then
    let v1 : Neighbours α :=
      if i = 0 then { v with top := 0 }
      else if i = (m : Int) - 1 then { v with bottom := 0 }
      else v
    if j = 0 then { v1 with left := 0 }
    else if j = (n : Int) - 1 then { v1 with right := 0 }
    else v1
  else v

/-- The locals of one sweep that live across cells: the grid, the cursor `counter`
into `sources`, and the accumulator `currSum`. -/
structure SweepState (α : Type) where
  grid : Grid α
  counter : Nat
  currSum : α

/-- The read `sources[counter]`: an entry while the cursor is inside the sequence,
and otherwise the slot the memory holds behind it. -/
def readSource (sources : List (source_point α)) (slots : Nat → source_point α)
    (counter : Nat) : source_point α :=
  match sources[counter]? with
  | some s => s
  | none => slots (counter - sources.length)

/-- The test `(i == sources[counter].x) && (j == sources[counter].y)`. -/
def atSource (sources : List (source_point α)) (slots : Nat → source_point α)
    (counter : Nat) (i j : Nat) : Bool :=
  decide ((i : Int) = (readSource sources slots counter).x ∧
    (j : Int) = (readSource sources slots counter).y)

/-- The index `p` (resp. `q`): `i - 1`, replaced by `m - 1` when it is `-1`. -/
def prevIndex (i m : Nat) : Nat :=
  if (i : Int) - 1 = -1 then m - 1 else i - 1

/-- The four reads of the inner loop body followed by the call of `cyclicCheck`. -/
def resolve [Zero α] (n m : Nat) (is_cyclic : Int) (grid : Grid α) (i p j : Nat) :
    Neighbours α :=
  let q := prevIndex j n
  cyclicCheck n m is_cyclic i j
    { top := grid p j
      bottom := grid ((i + 1) % m) j
      right := grid i ((j + 1) % n)
      left := grid i q }

/-- The part of the inner loop body after the source test: read the neighbours,
call the update function, store the result and add it to `currSum`. -/
def updateCell [Zero α] [Add α] (function : α → α → α → α → α → α) (n m : Nat)
    (is_cyclic : Int) (i p j : Nat) (st : SweepState α) : SweepState α :=
  let v := resolve n m is_cyclic st.grid i p j
  let result := function (st.grid i j) v.right v.top v.left v.bottom
  { grid := st.grid.write i j result
    counter := st.counter
    currSum := st.currSum + result }

/-- The body of the inner `for` loop at cell `(i, j)`, `p` being the row above: on a
match with `sources[counter]` advance the cursor and `continue`. -/
def cellStep [Zero α] [Add α] (function : α → α → α → α → α → α) (n m : Nat)
    (sources : List (source_point α)) (slots : Nat → source_point α)
    (is_cyclic : Int) (i p j : Nat)
    (st : SweepState α) : SweepState α :=
  if atSource sources slots st.counter i j then
    { st with counter := st.counter + 1 }
  else
    updateCell function n m is_cyclic i p j st

/-- The inner loop `for (j = 0; j < cols; ++j)` of row `i`; the code runs it with
`cols = n`. -/
def rowLoop [Zero α] [Add α] (function : α → α → α → α → α → α) (n m : Nat)
    (sources : List (source_point α)) (slots : Nat → source_point α)
    (is_cyclic : Int) (i cols : Nat)
    (st : SweepState α) : SweepState α :=
  (List.range cols).foldl
    (fun s j => cellStep function n m sources slots is_cyclic i (prevIndex i m) j s) st

/-- The outer loop `for (i = 0; i < rows; ++i)`; the code runs it with `rows = m`. -/
def sweepLoop [Zero α] [Add α] (function : α → α → α → α → α → α) (n m : Nat)
    (sources : List (source_point α)) (slots : Nat → source_point α)
    (is_cyclic : Int) (rows : Nat)
    (st : SweepState α) : SweepState α :=
  (List.range rows).foldl
    (fun s i => rowLoop function n m sources slots is_cyclic i n s) st

/-- One pass of the `do` body up to `rounds ++`: `currSum = 0`, `counter = 0`, then
the two nested loops over the whole grid. -/
def sweep [Zero α] [Add α] (function : α → α → α → α → α → α) (n m : Nat)
    (sources : List (source_point α)) (slots : Nat → source_point α)
    (is_cyclic : Int) (grid : Grid α) :
    SweepState α :=
  sweepLoop function n m sources slots is_cyclic m { grid := grid, counter := 0, currSum := 0 }

/-- What a call of `calculate` leaves behind: the returned difference, the grid, and
the value of the local `rounds` (the number of sweeps made). -/
structure CalcResult (α : Type) where
  diff : α
  grid : Grid α
  rounds : Nat

/-- The `do … while` loop of `calculate`, entered with the given grid, `currSum` and
`rounds`.  For `n_iter ≥ 1` the loop returns when `rounds` reaches `n_iter`, so the
`size_t` counter cannot wrap before that. -/
def calcLoop [LinearOrderedRing α] (function : α → α → α → α → α → α) (n m : Nat)
    (sources : List (source_point α)) (slots : Nat → source_point α) (terminate : α)
    (n_iter : Nat) (is_cyclic : Int) :
    Nat → Grid α → α → Nat → Option (CalcResult α)
  | 0, _, _, _ => none
  | fuel + 1, grid, currSum, rounds =>
    let prevSum := currSum
    let st := sweep function n m sources slots is_cyclic grid
    let rounds := rounds + 1
    if rounds = n_iter then
      some { diff := |st.currSum - prevSum|, grid := st.grid, rounds := rounds }
    else if |st.currSum - prevSum| ≥ terminate then
      calcLoop function n m sources slots terminate n_iter is_cyclic fuel st.grid st.currSum rounds
    else
      some { diff := |st.currSum - prevSum|, grid := st.grid, rounds := rounds }

/-- `calculate`: `prevSum = 0`, `currSum = 0`, `rounds = 0`, then the loop. -/
def calculate [LinearOrderedRing α] (fuel : Nat) (function : α → α → α → α → α → α)
    (grid : Grid α) (n m : Nat) (sources : List (source_point α))
    (slots : Nat → source_point α) (terminate : α) (n_iter : Nat) (is_cyclic : Int) :
    Option (CalcResult α) :=
  calcLoop function n m sources slots terminate n_iter is_cyclic fuel grid 0 0

/-- Modelled from the spec: the equal-weight averaging kernel over the cell and its
four neighbours (the kernel `heat_eqn` of the header `heat_eqn.h` is not part of the
sources). -/
def avgKernel [LinearOrderedField α] (s r t l b : α) : α :=
  (s + r + t + l + b) / 5

/-! ### Vocabulary of the specification -/

/-- Row-major order on coordinates: `(a, b)` comes strictly before `(i, j)`. -/
def lexLt (a b i j : Int) : Prop := a < i ∨ (a = i ∧ b < j)

instance (a b i j : Int) : Decidable (lexLt a b i j) := by
  unfold lexLt; infer_instance

/-- The sources are sorted strictly ascending by (row, column). -/
def SourcesSorted (sources : List (source_point α)) : Prop :=
  sources.Pairwise (fun s t => lexLt s.x s.y t.x t.y)

instance (sources : List (source_point α)) : Decidable (SourcesSorted sources) := by
  unfold SourcesSorted; infer_instance

/-- Every source coordinate lies inside the `m × n` grid. -/
def SourcesInBounds (n m : Nat) (sources : List (source_point α)) : Prop :=
  ∀ s ∈ sources, 0 ≤ s.x ∧ s.x < m ∧ 0 ≤ s.y ∧ s.y < n

instance (n m : Nat) (sources : List (source_point α)) :
    Decidable (SourcesInBounds n m sources) := by
  unfold SourcesInBounds; infer_instance

/-- Cell `(i, j)` is the coordinate of some source. -/
def IsSource (sources : List (source_point α)) (i j : Nat) : Prop :=
  ∃ s ∈ sources, s.x = (i : Int) ∧ s.y = (j : Int)

instance (sources : List (source_point α)) (i j : Nat) :
    Decidable (IsSource sources i j) := by
  unfold IsSource; infer_instance

/-- The grid after `k` consecutive sweeps. -/
def gridAfter [Zero α] [Add α] (function : α → α → α → α → α → α) (n m : Nat)
    (sources : List (source_point α)) (slots : Nat → source_point α)
    (is_cyclic : Int) (grid : Grid α) : Nat → Grid α
  | 0 => grid
  | k + 1 =>
    (sweep function n m sources slots is_cyclic
      (gridAfter function n m sources slots is_cyclic grid k)).grid

/-- The sum `S k` accumulated by the `k`-th sweep, with `S 0 = 0`. -/
def sumAfter [Zero α] [Add α] (function : α → α → α → α → α → α) (n m : Nat)
    (sources : List (source_point α)) (slots : Nat → source_point α)
    (is_cyclic : Int) (grid : Grid α) : Nat → α
  | 0 => 0
  | k + 1 =>
    (sweep function n m sources slots is_cyclic
      (gridAfter function n m sources slots is_cyclic grid k)).currSum

/-- The sweep state on arrival at cell `(i, j)`: rows `0 .. i-1` done, and columns
`0 .. j-1` of row `i`. -/
def arrive [Zero α] [Add α] (function : α → α → α → α → α → α) (n m : Nat)
    (sources : List (source_point α)) (slots : Nat → source_point α)
    (is_cyclic : Int) (grid : Grid α) (i j : Nat) :
    SweepState α :=
  rowLoop function n m sources slots is_cyclic i j
    (sweepLoop function n m sources slots is_cyclic i { grid := grid, counter := 0, currSum := 0 })

/-- On arrival at cell `(i, j)` the cursor `c` separates the sources already passed
from those at or after `(i, j)`. -/
def Lockstep (srcs : List (source_point α)) (i j : Nat) (c : Nat) : Prop :=
  (∀ k (h : k < srcs.length), k < c → lexLt srcs[k].x srcs[k].y i j) ∧
  (∀ k (h : k < srcs.length), c ≤ k → ¬ lexLt srcs[k].x srcs[k].y i j)

/-- Sample data: an integer kernel that tells its five arguments apart. -/
def sampleKernel : ℤ → ℤ → ℤ → ℤ → ℤ → ℤ :=
  fun s r t l b => s + 2 * r + 3 * t + 5 * l + 7 * b

/-- Sample data: two sources on a `2 × 2` grid, in row-major order. -/
def sampleSources : List (source_point ℤ) :=
  [{ x := 0, y := 1, value := 5 }, { x := 1, y := 0, value := 7 }]

/-- Sample data: the grid that `gridCreation` builds for `sampleSources`. -/
def sampleGrid : Grid ℤ :=
  fun a b => if a = 0 ∧ b = 1 then 5 else if a = 1 ∧ b = 0 then 7 else 0

/-- Sample data: the `1 × 2` grid `[10, 0]`. -/
def rowGrid : Grid ℤ :=
  fun a b => if a = 0 ∧ b = 0 then 10 else 0

/-- Sample data: the kernel that returns its `bottom` argument. -/
def bottomKernel : ℤ → ℤ → ℤ → ℤ → ℤ → ℤ :=
  fun _ _ _ _ b => b

/-- Sample data: the grid of rationals whose cells all hold `1`. -/
def unitGrid : Grid ℚ :=
  fun _ _ => 1

/-- The loop leaves after sweep `r`: the cap is reached or the difference of the last
two sums is below the threshold. -/
def StopsAt [LinearOrderedRing α] (S : Nat → α) (terminate : α) (n_iter r : Nat) : Prop :=
  r = n_iter ∨ |S r - S (r - 1)| < terminate

/-! ### Vocabulary of the scan order -/

/-- Cell `(a, b)` is scanned strictly before cell `(i, j)`. -/
def scannedBefore (a b i j : Nat) : Prop := a < i ∨ (a = i ∧ b < j)

instance (a b i j : Nat) : Decidable (scannedBefore a b i j) := by
  unfold scannedBefore; infer_instance

/-- The number of cells of a sweep at which the source test fails, that is, at which
the update function is called. -/
def updateCount [Zero α] [Add α] (function : α → α → α → α → α → α) (n m : Nat)
    (sources : List (source_point α)) (slots : Nat → source_point α)
    (is_cyclic : Int) (grid : Grid α) : Nat :=
  ∑ i ∈ Finset.range m, ∑ j ∈ Finset.range n,
    if atSource sources slots (arrive function n m sources slots is_cyclic grid i j).counter i j
    then 0 else 1

/-- Sample data: two sources of a `1 × 2` grid, not in row-major order. -/
def unsortedSources : List (source_point ℤ) :=
  [{ x := 0, y := 1, value := 5 }, { x := 0, y := 0, value := 7 }]

/-- Sample data: the grid that `gridCreation` builds for `unsortedSources`. -/
def unsortedGrid : Grid ℤ :=
  fun a b => if a = 0 ∧ b = 0 then 7 else if a = 0 ∧ b = 1 then 5 else 0

/-! ### The reader (`reader.c`) -/

/-- The value an `int` operation yields for the exact result `z`: `z` reduced to the
range `-2^31 .. 2^31 - 1` modulo `2^32`. -/
def wrapInt (z : Int) : Int :=
  (z + 2147483648) % 4294967296 - 2147483648

/-- `helper`, the comparator handed to `qsort`: the difference of the rows, or of the
columns when the rows agree; both subtractions are `int` subtractions. -/
def helper (one two : source_point α) : Int :=
  let diff := wrapInt (one.x - two.x)
  if diff ≠ 0 then diff else wrapInt (one.y - two.y)

/-- Both coordinates are non-negative values of type `int`. -/
def CoordsInt (s : source_point α) : Prop :=
  0 ≤ s.x ∧ s.x < 2147483648 ∧ 0 ≤ s.y ∧ s.y < 2147483648

instance (s : source_point α) : Decidable (CoordsInt s) := by
  unfold CoordsInt; infer_instance

/-- The sources are in ascending row-major order, equal coordinates allowed. -/
def SourcesAscending (sources : List (source_point α)) : Prop :=
  sources.Pairwise (fun s t => ¬ lexLt t.x t.y s.x s.y)

instance (sources : List (source_point α)) : Decidable (SourcesAscending sources) := by
  unfold SourcesAscending; infer_instance

/-- The test `strcmp(line, s) == 0` of the C library: the two strings are equal. -/
def strcmpIsZero (line s : String) : Bool :=
  decide (line = s)

/-- The last operand of the dimension check of `main`:
`(strcmp(line, "----\n") == 0) && (strcmp(line, "----\r\n") == 0)`. -/
def separatorRejects (line : String) : Bool :=
  strcmpIsZero line "----\n" && strcmpIsZero line "----\r\n"

/-- The condition of the dimension check of `main`, which leads to the exit with
"Bad File Format".  `scanned` is the value `sscanf` returned for the first line, `m`
and `n` what it stored, `next` the line `fgets` read after it (`none` for `NULL`); the
operands are evaluated left to right and `||` stops at the first that holds. -/
def dimCheckRejects (scanned : Int) (m n : Nat) (next : Option String) : Bool :=
  if scanned ≠ 2 then true
  else if m ≤ 0 ∨ n ≤ 0 then true
  else match next with
    | none => true
    | some line => separatorRejects line

/-- The condition of the `while` loop over the source lines of `main`:
`strcmp(line, "----\n") && strcmp(line, "----\r\n")`, the line is no separator. -/
def notSeparator (line : String) : Bool :=
  !strcmpIsZero line "----\n" && !strcmpIsZero line "----\r\n"

/-- Sample data: sources of a `1 × 2` grid with the coordinate `(0, 0)` twice. -/
def dupSources : List (source_point ℤ) :=
  [{ x := 0, y := 0, value := 7 }, { x := 0, y := 0, value := 7 },
    { x := 0, y := 1, value := 5 }]

/-- Slots that read as zero, as a fresh block of memory does: the coordinate
`(0, 0)`. -/
def zeroSlots [Zero α] : Nat → source_point α :=
  fun _ => { x := 0, y := 0, value := 0 }

/-- Sample data: one source, in the last cell of a `1 × 2` grid. -/
def lastSource : List (source_point ℤ) :=
  [{ x := 0, y := 1, value := 0 }]

/-- Sample data: one source of heat `5` in the last cell of a `1 × 2` grid. -/
def rationalSource : List (source_point ℚ) :=
  [{ x := 0, y := 1, value := 5 }]

/-- Sample data: the grid that `gridCreation` builds for `rationalSource`. -/
def rationalGrid : Grid ℚ :=
  fun a b => if a = 0 ∧ b = 1 then 5 else 0

/-- Sample data: the grid of integers whose cells all hold `1`. -/
def onesGrid : Grid ℤ :=
  fun _ _ => 1

/-! ### The loops, one iteration at a time -/

section Loops

variable [Zero α] [Add α] (f : α → α → α → α → α → α) (n m : Nat)
  (srcs : List (source_point α)) (slots : Nat → source_point α) (cyc : Int)

theorem rowLoop_zero (i : Nat) (st : SweepState α) :
    rowLoop f n m srcs slots cyc i 0 st = st := rfl

theorem rowLoop_succ (i c : Nat) (st : SweepState α) :
    rowLoop f n m srcs slots cyc i (c + 1) st =
      cellStep f n m srcs slots cyc i (prevIndex i m) c (rowLoop f n m srcs slots cyc i c st) := by
  simp [rowLoop, List.range_succ, List.foldl_append]

theorem sweepLoop_zero (st : SweepState α) :
    sweepLoop f n m srcs slots cyc 0 st = st := rfl

theorem sweepLoop_succ (r : Nat) (st : SweepState α) :
    sweepLoop f n m srcs slots cyc (r + 1) st =
      rowLoop f n m srcs slots cyc r n (sweepLoop f n m srcs slots cyc r st) := by
  simp [sweepLoop, List.range_succ, List.foldl_append]

/-- Loop invariant rule for a row: `Q j` holds on arrival at column `j`. -/
theorem rowLoop_invariant (i : Nat) (Q : Nat → SweepState α → Prop)
    (hcell : ∀ j st, j < n → Q j st →
      Q (j + 1) (cellStep f n m srcs slots cyc i (prevIndex i m) j st))
    (st : SweepState α) (h0 : Q 0 st) :
    ∀ c, c ≤ n → Q c (rowLoop f n m srcs slots cyc i c st) := by
  intro c
  induction c with
  | zero => intro _; exact h0
  | succ c ih =>
    intro hc
    rw [rowLoop_succ]
    exact hcell c _ (by omega) (ih (by omega))

/-- Loop invariant rule for the nested loops: `Q i j` holds on arrival at cell
`(i, j)`, and `Q i n` at the end of row `i`. -/
theorem sweepLoop_invariant (Q : Nat → Nat → SweepState α → Prop)
    (hcell : ∀ i j st, i < m → j < n → Q i j st →
      Q i (j + 1) (cellStep f n m srcs slots cyc i (prevIndex i m) j st))
    (hrow : ∀ i st, i < m → Q i n st → Q (i + 1) 0 st)
    (st : SweepState α) (h0 : Q 0 0 st) :
    ∀ r, r ≤ m → Q r 0 (sweepLoop f n m srcs slots cyc r st) := by
  intro r
  induction r with
  | zero => intro _; exact h0
  | succ r ih =>
    intro hr
    rw [sweepLoop_succ]
    apply hrow r _ (by omega)
    exact rowLoop_invariant f n m srcs slots cyc r (Q r)
      (fun j st hj hq => hcell r j st (by omega) hj hq) _ (ih (by omega)) n (le_refl n)

end Loops

/-! ### The cursor walks the sorted sources in lockstep with the scan -/

theorem lockstep_init {n m : Nat} {srcs : List (source_point α)}
    (hb : SourcesInBounds n m srcs) : Lockstep srcs 0 0 0 := by
  refine ⟨fun k _ hk => absurd hk (Nat.not_lt_zero k), fun k h _ => ?_⟩
  have := hb srcs[k] (List.getElem_mem h)
  unfold lexLt
  push_cast
  omega

theorem lockstep_row {n m : Nat} {srcs : List (source_point α)}
    (hb : SourcesInBounds n m srcs) {i c : Nat} (h : Lockstep srcs i n c) :
    Lockstep srcs (i + 1) 0 c := by
  obtain ⟨h1, h2⟩ := h
  refine ⟨fun k hk hkc => ?_, fun k hk hkc => ?_⟩
  · have a := h1 k hk hkc
    have b := hb srcs[k] (List.getElem_mem hk)
    unfold lexLt at a ⊢
    push_cast
    omega
  · have a := h2 k hk hkc
    have b := hb srcs[k] (List.getElem_mem hk)
    unfold lexLt at a ⊢
    push_cast
    omega

theorem readSource_entry {srcs : List (source_point α)} {slots : Nat → source_point α}
    {c : Nat} (hc : c < srcs.length) : readSource srcs slots c = srcs[c] := by
  unfold readSource
  rw [List.getElem?_eq_getElem hc]

theorem readSource_slot {srcs : List (source_point α)} {slots : Nat → source_point α}
    {c : Nat} (hc : srcs.length ≤ c) :
    readSource srcs slots c = slots (c - srcs.length) := by
  unfold readSource
  rw [List.getElem?_eq_none hc]

/-- Inside the sequence the test compares with the entry under the cursor. -/
theorem atSource_entry {srcs : List (source_point α)} {slots : Nat → source_point α}
    {c i j : Nat} (hc : c < srcs.length) :
    atSource srcs slots c i j = true ↔ srcs[c].x = (i : Int) ∧ srcs[c].y = (j : Int) := by
  unfold atSource
  rw [readSource_entry hc, decide_eq_true_eq]
  constructor
  · rintro ⟨hx, hy⟩
    exact ⟨hx.symm, hy.symm⟩
  · rintro ⟨hx, hy⟩
    exact ⟨hx.symm, hy.symm⟩

/-- Behind the sequence the test compares with the slot the memory holds there. -/
theorem atSource_slot {srcs : List (source_point α)} {slots : Nat → source_point α}
    {c i j : Nat} (hc : srcs.length ≤ c) :
    atSource srcs slots c i j = true ↔
      (slots (c - srcs.length)).x = (i : Int) ∧ (slots (c - srcs.length)).y = (j : Int) := by
  unfold atSource
  rw [readSource_slot hc, decide_eq_true_eq]
  constructor
  · rintro ⟨hx, hy⟩
    exact ⟨hx.symm, hy.symm⟩
  · rintro ⟨hx, hy⟩
    exact ⟨hx.symm, hy.symm⟩

/-- With sorted sources and the cursor in lockstep, the test succeeds at every source
cell, on an entry of the sequence. -/
theorem lockstep_atSource {srcs : List (source_point α)} (slots : Nat → source_point α)
    (hs : SourcesSorted srcs) {i j c : Nat} (h : Lockstep srcs i j c)
    (hsrc : IsSource srcs i j) :
    c < srcs.length ∧ atSource srcs slots c i j = true := by
  obtain ⟨s, hmem, hx, hy⟩ := hsrc
  obtain ⟨k, hk, rfl⟩ := List.getElem_of_mem hmem
  obtain ⟨h1, h2⟩ := h
  have hkc : c ≤ k := by
    by_contra hlt
    have := h1 k hk (by omega)
    unfold lexLt at this
    omega
  have hc : c < srcs.length := by omega
  rcases Nat.eq_or_lt_of_le hkc with rfl | hlt
  · exact ⟨hk, (atSource_entry hk).mpr ⟨hx, hy⟩⟩
  · exfalso
    have hord := (List.pairwise_iff_getElem.mp hs) c k hc hk hlt
    have := h2 c hc (le_refl c)
    unfold lexLt at this hord
    omega

/-- The cursor after the cell `(i, j)` is again in lockstep, at `(i, j + 1)`, whatever
the slots behind the sequence hold. -/
theorem lockstep_step {srcs : List (source_point α)} (slots : Nat → source_point α)
    (hs : SourcesSorted srcs) {i j c : Nat} (h : Lockstep srcs i j c) :
    Lockstep srcs i (j + 1) (if atSource srcs slots c i j then c + 1 else c) := by
  obtain ⟨h1, h2⟩ := h
  by_cases hat : atSource srcs slots c i j = true
  · rw [if_pos hat]
    by_cases hc : c < srcs.length
    · obtain ⟨hx, hy⟩ := (atSource_entry hc).mp hat
      refine ⟨fun k hk hkc => ?_, fun k hk hkc => ?_⟩
      · rcases Nat.eq_or_lt_of_le (Nat.le_of_lt_succ hkc) with rfl | hlt
        · unfold lexLt; push_cast; omega
        · have := h1 k hk hlt
          unfold lexLt at this ⊢; push_cast; omega
      · have hord := (List.pairwise_iff_getElem.mp hs) c k hc hk (by omega)
        unfold lexLt at hord ⊢; push_cast; omega
    · refine ⟨fun k hk _ => ?_, fun k hk hkc => ?_⟩
      · have := h1 k hk (by omega)
        unfold lexLt at this ⊢; push_cast; omega
      · omega
  · rw [if_neg hat]
    refine ⟨fun k hk hkc => ?_, fun k hk hkc => ?_⟩
    · have := h1 k hk hkc
      unfold lexLt at this ⊢; push_cast; omega
    · have hc : c < srcs.length := by omega
      have hne : ¬ (srcs[c].x = (i : Int) ∧ srcs[c].y = (j : Int)) :=
        fun hh => hat ((atSource_entry hc).mpr hh)
      have hcc := h2 c hc (le_refl c)
      rcases Nat.eq_or_lt_of_le hkc with rfl | hlt
      · unfold lexLt at hcc ⊢; push_cast; omega
      · have hord := (List.pairwise_iff_getElem.mp hs) c k hc hk hlt
        unfold lexLt at hcc hord ⊢; push_cast; omega

/-! ### Invariant rule for a sweep over sorted, in-bounds sources -/

section Sorted

variable [Zero α] [Add α] (f : α → α → α → α → α → α) (n m : Nat)
  (srcs : List (source_point α)) (slots : Nat → source_point α) (cyc : Int)

theorem arrive_row_end (grid : Grid α) (i : Nat) :
    arrive f n m srcs slots cyc grid i n = arrive f n m srcs slots cyc grid (i + 1) 0 := by
  simp [arrive, sweepLoop_succ, rowLoop_zero]

theorem arrive_succ (grid : Grid α) (i j : Nat) :
    arrive f n m srcs slots cyc grid i (j + 1) =
      cellStep f n m srcs slots cyc i (prevIndex i m) j (arrive f n m srcs slots cyc grid i j) := by
  simp [arrive, rowLoop_succ]

theorem sweep_eq_arrive (grid : Grid α) :
    sweep f n m srcs slots cyc grid = arrive f n m srcs slots cyc grid m 0 := by
  simp [arrive, sweep, rowLoop_zero]

/-- With sorted in-bounds sources no source cell is updated, whatever the slots behind
the sequence hold: an invariant kept by every skip and by the update of every
non-source cell holds on arrival at every cell; the cursor is in lockstep
throughout. -/
theorem arrive_invariant (hs : SourcesSorted srcs) (hb : SourcesInBounds n m srcs)
    (Q : Nat → Nat → SweepState α → Prop)
    (hskip : ∀ i j st, i < m → j < n → atSource srcs slots st.counter i j = true →
      Q i j st → Q i (j + 1) { st with counter := st.counter + 1 })
    (hupd : ∀ i j st, i < m → j < n → ¬ IsSource srcs i j → Q i j st →
      Q i (j + 1) (updateCell f n m cyc i (prevIndex i m) j st))
    (hrow : ∀ i st, i < m → Q i n st → Q (i + 1) 0 st)
    (grid : Grid α) (h0 : Q 0 0 { grid := grid, counter := 0, currSum := 0 }) :
    ∀ i j, (i < m ∧ j ≤ n) ∨ (i = m ∧ j = 0) →
      Q i j (arrive f n m srcs slots cyc grid i j) ∧
        Lockstep srcs i j (arrive f n m srcs slots cyc grid i j).counter := by
  have hcell : ∀ i j (st : SweepState α), i < m → j < n →
      (Q i j st ∧ Lockstep srcs i j st.counter) →
      (Q i (j + 1) (cellStep f n m srcs slots cyc i (prevIndex i m) j st) ∧
        Lockstep srcs i (j + 1)
          (cellStep f n m srcs slots cyc i (prevIndex i m) j st).counter) := by
    intro i j st hi hj ⟨hq, hl⟩
    have hstep := lockstep_step slots hs hl
    unfold cellStep
    by_cases hat : atSource srcs slots st.counter i j = true
    · rw [if_pos hat] at hstep ⊢
      exact ⟨hskip i j st hi hj hat hq, hstep⟩
    · rw [if_neg hat] at hstep ⊢
      exact ⟨hupd i j st hi hj (fun h => hat (lockstep_atSource slots hs hl h).2) hq,
        hstep⟩
  have hrows : ∀ r, r ≤ m →
      (Q r 0 (sweepLoop f n m srcs slots cyc r { grid := grid, counter := 0, currSum := 0 }) ∧
        Lockstep srcs r 0
          (sweepLoop f n m srcs slots cyc r
            { grid := grid, counter := 0, currSum := 0 }).counter) :=
    sweepLoop_invariant f n m srcs slots cyc
      (fun i j st => Q i j st ∧ Lockstep srcs i j st.counter) hcell
      (fun i st hi h => ⟨hrow i st hi h.1, lockstep_row hb h.2⟩) _
      ⟨h0, lockstep_init hb⟩
  intro i j hij
  rcases hij with ⟨hi, hj⟩ | ⟨rfl, rfl⟩
  · exact rowLoop_invariant f n m srcs slots cyc i
      (fun j st => Q i j st ∧ Lockstep srcs i j st.counter)
      (fun j st hj h => hcell i j st hi hj h) _ (hrows i (by omega)) j hj
  · exact hrows i (le_refl i)

end Sorted

/-! ### The convergence loop -/

section Loop

variable [LinearOrderedRing α] (f : α → α → α → α → α → α) (n m : Nat)
  (srcs : List (source_point α)) (slots : Nat → source_point α) (terminate : α)
  (n_iter : Nat) (cyc : Int)
  (grid : Grid α)

/-- Entered after `k0 < n_iter` sweeps none of which stopped the loop, and with enough
fuel, the loop returns after the first sweep `r` at which it may stop. -/
theorem calcLoop_spec :
    ∀ fuel k0, k0 < n_iter → n_iter ≤ k0 + fuel →
      (∀ k, 1 ≤ k → k ≤ k0 →
        ¬ StopsAt (sumAfter f n m srcs slots cyc grid) terminate n_iter k) →
      ∃ r, k0 < r ∧ r ≤ n_iter ∧
        StopsAt (sumAfter f n m srcs slots cyc grid) terminate n_iter r ∧
        (∀ k, 1 ≤ k → k < r →
          ¬ StopsAt (sumAfter f n m srcs slots cyc grid) terminate n_iter k) ∧
        calcLoop f n m srcs slots terminate n_iter cyc fuel
            (gridAfter f n m srcs slots cyc grid k0) (sumAfter f n m srcs slots cyc grid k0) k0 =
          some { diff := |sumAfter f n m srcs slots cyc grid r -
                          sumAfter f n m srcs slots cyc grid (r - 1)|
                 grid := gridAfter f n m srcs slots cyc grid r
                 rounds := r } := by
  intro fuel
  induction fuel with
  | zero => intro k0 h1 h2; omega
  | succ fuel ih =>
    intro k0 hk0 hfuel hprev
    have hS : (sweep f n m srcs slots cyc (gridAfter f n m srcs slots cyc grid k0)).currSum =
        sumAfter f n m srcs slots cyc grid (k0 + 1) := rfl
    have hG : (sweep f n m srcs slots cyc (gridAfter f n m srcs slots cyc grid k0)).grid =
        gridAfter f n m srcs slots cyc grid (k0 + 1) := rfl
    unfold calcLoop
    simp only [hS, hG]
    by_cases hcap : k0 + 1 = n_iter
    · rw [if_pos hcap]
      refine ⟨k0 + 1, by omega, by omega, Or.inl hcap, ?_, ?_⟩
      · intro k hk1 hk2
        exact hprev k hk1 (by omega)
      · simp
    · rw [if_neg hcap]
      by_cases hge : |sumAfter f n m srcs slots cyc grid (k0 + 1) -
          sumAfter f n m srcs slots cyc grid k0| ≥ terminate
      · rw [if_pos hge]
        have hnot : ¬ StopsAt (sumAfter f n m srcs slots cyc grid) terminate n_iter (k0 + 1) := by
          rintro (h | h)
          · exact hcap h
          · simp only [Nat.add_sub_cancel] at h
            exact absurd hge (not_le.mpr h)
        obtain ⟨r, hr1, hr2, hr3, hr4, hr5⟩ := ih (k0 + 1) (by omega) (by omega)
          (fun k hk1 hk2 => by
            rcases Nat.eq_or_lt_of_le hk2 with rfl | hlt
            · exact hnot
            · exact hprev k hk1 (by omega))
        exact ⟨r, by omega, hr2, hr3, hr4, hr5⟩
      · rw [if_neg hge]
        refine ⟨k0 + 1, by omega, by omega, Or.inr ?_, ?_, ?_⟩
        · simp only [Nat.add_sub_cancel]
          exact not_le.mp hge
        · intro k hk1 hk2
          exact hprev k hk1 (by omega)
        · simp

/-- A call with `n_iter ≥ 1` and fuel at least `n_iter` returns: it makes `r` sweeps,
`r` being the first sweep at which the loop may stop. -/
theorem calculate_spec (fuel : Nat) (hiter : 1 ≤ n_iter) (hfuel : n_iter ≤ fuel) :
    ∃ r, 1 ≤ r ∧ r ≤ n_iter ∧
      StopsAt (sumAfter f n m srcs slots cyc grid) terminate n_iter r ∧
      (∀ k, 1 ≤ k → k < r →
        ¬ StopsAt (sumAfter f n m srcs slots cyc grid) terminate n_iter k) ∧
      calculate fuel f grid n m srcs slots terminate n_iter cyc =
        some { diff := |sumAfter f n m srcs slots cyc grid r -
                        sumAfter f n m srcs slots cyc grid (r - 1)|
               grid := gridAfter f n m srcs slots cyc grid r
               rounds := r } := by
  obtain ⟨r, h1, h2, h3, h4, h5⟩ :=
    calcLoop_spec f n m srcs slots terminate n_iter cyc grid fuel 0 (by omega) (by omega)
      (fun k hk1 hk2 => by omega)
  exact ⟨r, by omega, h2, h3, h4, h5⟩

end Loop

/-! ### Source cells are never written -/

theorem write_other (g : Grid α) (i j a b : Nat) (v : α) (h : ¬ (a = i ∧ b = j)) :
    g.write i j v a b = g a b := by
  unfold Grid.write
  rw [if_neg h]

theorem write_same (g : Grid α) (i j : Nat) (v : α) : g.write i j v i j = v := by
  unfold Grid.write
  rw [if_pos ⟨rfl, rfl⟩]

theorem isSource_of_mem {n m : Nat} {srcs : List (source_point α)}
    (hb : SourcesInBounds n m srcs) {s : source_point α} (h : s ∈ srcs) :
    IsSource srcs s.x.toNat s.y.toNat := by
  have := hb s h
  exact ⟨s, h, by omega, by omega⟩

section Sources

variable [Zero α] [Add α] (f : α → α → α → α → α → α) (n m : Nat)
  (srcs : List (source_point α)) (slots : Nat → source_point α) (cyc : Int)

theorem sweep_source_fixed (hs : SourcesSorted srcs) (hb : SourcesInBounds n m srcs)
    (grid : Grid α) (a b : Nat) (hab : IsSource srcs a b) :
    (sweep f n m srcs slots cyc grid).grid a b = grid a b := by
  rw [sweep_eq_arrive]
  refine (arrive_invariant f n m srcs slots cyc hs hb
    (fun _ _ st => st.grid a b = grid a b) ?_ ?_ ?_ grid rfl m 0 (Or.inr ⟨rfl, rfl⟩)).1
  · intro i j st _ _ _ h
    exact h
  · intro i j st _ _ hns h
    have hne : ¬ (a = i ∧ b = j) := by
      rintro ⟨rfl, rfl⟩
      exact hns hab
    simp only [updateCell]
    rw [write_other _ _ _ _ _ _ hne]
    exact h
  · intro i st _ h
    exact h

theorem gridAfter_source_fixed (hs : SourcesSorted srcs) (hb : SourcesInBounds n m srcs)
    (grid : Grid α) (a b : Nat) (hab : IsSource srcs a b) (k : Nat) :
    gridAfter f n m srcs slots cyc grid k a b = grid a b := by
  induction k with
  | zero => rfl
  | succ k ih =>
    show (sweep f n m srcs slots cyc (gridAfter f n m srcs slots cyc grid k)).grid a b = grid a b
    rw [sweep_source_fixed f n m srcs slots cyc hs hb _ a b hab, ih]

end Sources

/-! ### Neighbours in the cyclic mode -/

theorem prevIndex_eq_emod (i m : Nat) (hi : i < m) :
    prevIndex i m = (((i : Int) - 1) % (m : Int)).toNat := by
  unfold prevIndex
  by_cases h0 : i = 0
  · subst h0
    have h1 : ((0 : Nat) : Int) - 1 = -1 := by norm_num
    rw [if_pos h1, h1]
    have h2 : (-1 : Int) % (m : Int) = (m : Int) - 1 := by
      rw [Int.emod_eq_add_self_emod, Int.emod_eq_of_lt] <;> omega
    rw [h2]
    omega
  · have h1 : ¬ ((i : Int) - 1 = -1) := by omega
    rw [if_neg h1, Int.emod_eq_of_lt (by omega) (by omega)]
    omega

theorem cyclicCheck_cyclic [Zero α] (n m : Nat) (cyc : Int) (hcyc : cyc ≠ 0) (i j : Int)
    (v : Neighbours α) : cyclicCheck n m cyc i j v = v := by
  unfold cyclicCheck
  rw [if_neg hcyc]

/-- A call with `n_iter = 1` makes one sweep and returns the absolute value of its
sum: the previous sum of the first round is the initial `0`. -/
theorem calculate_one [LinearOrderedRing α] (f : α → α → α → α → α → α) (grid : Grid α)
    (n m : Nat) (srcs : List (source_point α)) (slots : Nat → source_point α) (terminate : α)
    (cyc : Int) (fuel : Nat)
    (hfuel : 1 ≤ fuel) :
    calculate fuel f grid n m srcs slots terminate 1 cyc =
      some { diff := |(sweep f n m srcs slots cyc grid).currSum|
             grid := (sweep f n m srcs slots cyc grid).grid
             rounds := 1 } := by
  obtain ⟨r, h1, h2, _, _, h5⟩ :=
    calculate_spec f n m srcs slots terminate 1 cyc grid fuel (le_refl 1) hfuel
  have hr : r = 1 := by omega
  subst hr
  rw [h5]
  show some (CalcResult.mk |(sweep f n m srcs slots cyc grid).currSum - 0| _ 1) = _
  rw [sub_zero]
  rfl

/-! ### What the scan has and has not written on arrival at a cell -/

section Arrival

variable [Zero α] [Add α] (f : α → α → α → α → α → α) (n m : Nat)
  (srcs : List (source_point α)) (slots : Nat → source_point α) (cyc : Int)

/-- Induction along the scan: a property of the arrival states that holds at the
start and is kept by every cell step and every row change holds at every arrival. -/
theorem arrive_induction (grid : Grid α) (P : Nat → Nat → SweepState α → Prop)
    (h0 : P 0 0 (arrive f n m srcs slots cyc grid 0 0))
    (hcell : ∀ i j, i < m → j < n → P i j (arrive f n m srcs slots cyc grid i j) →
      P i (j + 1) (arrive f n m srcs slots cyc grid i (j + 1)))
    (hrow : ∀ i, i < m → P i n (arrive f n m srcs slots cyc grid i n) →
      P (i + 1) 0 (arrive f n m srcs slots cyc grid (i + 1) 0)) :
    ∀ i j, (i < m ∧ j ≤ n) ∨ (i = m ∧ j = 0) → P i j (arrive f n m srcs slots cyc grid i j) := by
  have hrows : ∀ r, r ≤ m → P r 0 (arrive f n m srcs slots cyc grid r 0) := by
    intro r
    induction r with
    | zero => intro _; exact h0
    | succ r ih =>
      intro hr
      apply hrow r (by omega)
      have hcols : ∀ c, c ≤ n → P r c (arrive f n m srcs slots cyc grid r c) := by
        intro c
        induction c with
        | zero => intro _; exact ih (by omega)
        | succ c ihc =>
          intro hc
          exact hcell r c (by omega) (by omega) (ihc (by omega))
      exact hcols n (le_refl n)
  intro i j hij
  rcases hij with ⟨hi, hj⟩ | ⟨rfl, rfl⟩
  · induction j with
    | zero => exact hrows i (by omega)
    | succ c ihc => exact hcell i c hi (by omega) (ihc (by omega))
  · exact hrows i (le_refl i)

/-- A cell step stores at most at its own cell. -/
theorem cellStep_grid_other (i p j a b : Nat) (st : SweepState α)
    (h : ¬ (a = i ∧ b = j)) :
    (cellStep f n m srcs slots cyc i p j st).grid a b = st.grid a b := by
  unfold cellStep
  split_ifs
  · rfl
  · exact write_other _ _ _ _ _ _ h

/-- A cell already scanned on arrival at `(i, j)` holds the value it had right after
its own step: the scan does not come back to it. -/
theorem arrive_grid_scanned (grid : Grid α) (a b : Nat) (hb : b < n) :
    ∀ i j, (i < m ∧ j ≤ n) ∨ (i = m ∧ j = 0) → scannedBefore a b i j →
      (arrive f n m srcs slots cyc grid i j).grid a b =
        (arrive f n m srcs slots cyc grid a (b + 1)).grid a b := by
  refine arrive_induction f n m srcs slots cyc grid
    (fun i j st => scannedBefore a b i j →
      st.grid a b = (arrive f n m srcs slots cyc grid a (b + 1)).grid a b) ?_ ?_ ?_
  · intro h
    unfold scannedBefore at h
    omega
  · intro i j _ _ ih hsc
    unfold scannedBefore at hsc ih
    by_cases hab : a = i ∧ b = j
    · obtain ⟨rfl, rfl⟩ := hab
      rfl
    · rw [arrive_succ, cellStep_grid_other f n m srcs slots cyc i _ j a b _ hab]
      exact ih (by omega)
  · intro i _ ih hsc
    unfold scannedBefore at hsc ih
    rw [← arrive_row_end]
    exact ih (by omega)

/-- The grid a sweep leaves holds, at every cell, the value the cell had right after
its own step. -/
theorem sweep_grid_final (grid : Grid α) (a b : Nat) (ha : a < m) (hb : b < n) :
    (sweep f n m srcs slots cyc grid).grid a b =
      (arrive f n m srcs slots cyc grid a (b + 1)).grid a b := by
  rw [sweep_eq_arrive]
  exact arrive_grid_scanned f n m srcs slots cyc grid a b hb m 0 (Or.inr ⟨rfl, rfl⟩)
    (Or.inl ha)

end Arrival

section Counter

variable [Zero α] [Add α] (f : α → α → α → α → α → α) (n m : Nat)
  (srcs : List (source_point α)) (slots : Nat → source_point α) (cyc : Int)

theorem cellStep_counter (i p j : Nat) (st : SweepState α) :
    (cellStep f n m srcs slots cyc i p j st).counter =
      st.counter + (if atSource srcs slots st.counter i j then 1 else 0) := by
  unfold cellStep
  split_ifs <;> rfl

end Counter

/-! ### The comparator of the reader -/

theorem wrapInt_sub (a b : Int) (ha : 0 ≤ a) (ha2 : a < 2147483648) (hb : 0 ≤ b)
    (hb2 : b < 2147483648) : wrapInt (a - b) = a - b := by
  unfold wrapInt
  omega

theorem helper_eq (a b : source_point α) (ha : CoordsInt a) (hb : CoordsInt b) :
    helper a b = if a.x - b.x ≠ 0 then a.x - b.x else a.y - b.y := by
  obtain ⟨h1, h2, h3, h4⟩ := ha
  obtain ⟨h5, h6, h7, h8⟩ := hb
  unfold helper
  simp only [wrapInt_sub a.x b.x h1 h2 h5 h6, wrapInt_sub a.y b.y h3 h4 h7 h8]

/-! ### The dimension check of the reader -/

/-- No line equals both separators, so the last operand never holds. -/
theorem separatorRejects_false (line : String) : separatorRejects line = false := by
  unfold separatorRejects strcmpIsZero
  by_cases h : line = "----\n"
  · subst h
    decide
  · simp [h]

/-! ### Two sources at one coordinate -/

/-- In an ascending sequence no entry at or before `k2` lies behind entry `k2`. -/
theorem ascending_le {srcs : List (source_point α)} (hasc : SourcesAscending srcs)
    (c k2 : Nat) (hc : c ≤ k2) (hk2 : k2 < srcs.length) :
    ¬ lexLt (srcs[k2]).x (srcs[k2]).y (srcs[c]).x (srcs[c]).y := by
  rcases Nat.eq_or_lt_of_le hc with rfl | hlt
  · unfold lexLt
    omega
  · exact (List.pairwise_iff_getElem.mp hasc) c k2 (by omega) hk2 hlt

/-- Below the cut the source test on the truncated sequence is the test on the whole
sequence. -/
theorem atSource_take (srcs : List (source_point α)) (slots slots2 : Nat → source_point α)
    (k c i j : Nat) (hc : c ≤ k) (hlen : c < srcs.length) :
    atSource (srcs.take (k + 1)) slots2 c i j = atSource srcs slots c i j := by
  unfold atSource readSource
  rw [List.getElem?_take_of_lt (by omega), List.getElem?_eq_getElem hlen]

theorem sourcesInBounds_take {n m : Nat} {srcs : List (source_point α)}
    (hb : SourcesInBounds n m srcs) (k : Nat) : SourcesInBounds n m (srcs.take k) :=
  fun s hmem => hb s (List.mem_of_mem_take hmem)

section Duplicates

variable [Zero α] [Add α] (f : α → α → α → α → α → α) (n m : Nat)
  (srcs : List (source_point α)) (slots : Nat → source_point α) (cyc : Int)

/-- If the entries `k < k2` have the same coordinate, the cursor never passes `k2`,
and once it has passed `k` the scan is strictly behind that coordinate. -/
theorem cursor_stall (grid : Grid α) (k k2 : Nat) (s t : source_point α)
    (hs : srcs[k]? = some s) (ht : srcs[k2]? = some t) (hk : k < k2)
    (hx : s.x = t.x) (hy : s.y = t.y) :
    ∀ i j, (i < m ∧ j ≤ n) ∨ (i = m ∧ j = 0) →
      (arrive f n m srcs slots cyc grid i j).counter ≤ k2 ∧
        (k < (arrive f n m srcs slots cyc grid i j).counter → lexLt s.x s.y i j) := by
  obtain ⟨hklt, hsk⟩ := List.getElem?_eq_some.mp hs
  obtain ⟨hk2lt, htk⟩ := List.getElem?_eq_some.mp ht
  refine arrive_induction f n m srcs slots cyc grid
    (fun i j st => st.counter ≤ k2 ∧ (k < st.counter → lexLt s.x s.y i j)) ?_ ?_ ?_
  · exact ⟨Nat.zero_le _, fun h => absurd h (Nat.not_lt_zero k)⟩
  · intro i j _ _ ⟨ih1, ih2⟩
    rw [arrive_succ, cellStep_counter]
    by_cases hat : atSource srcs slots (arrive f n m srcs slots cyc grid i j).counter i j = true
    · rw [if_pos hat]
      have hc : (arrive f n m srcs slots cyc grid i j).counter < srcs.length := by omega
      obtain ⟨hcx, hcy⟩ := (atSource_entry hc).mp hat
      have hne : (arrive f n m srcs slots cyc grid i j).counter ≠ k2 := by
        intro heq
        have hpast := ih2 (by omega)
        simp only [heq, htk] at hcx hcy
        unfold lexLt at hpast
        omega
      refine ⟨by omega, fun hgt => ?_⟩
      rcases Nat.eq_or_lt_of_le (Nat.le_of_lt_succ hgt) with heq | hlt
      · simp only [← heq, hsk] at hcx hcy
        unfold lexLt
        push_cast
        omega
      · have hpast := ih2 hlt
        unfold lexLt at hpast ⊢
        push_cast
        omega
    · rw [if_neg hat]
      refine ⟨ih1, fun hgt => ?_⟩
      have hpast := ih2 hgt
      unfold lexLt at hpast ⊢
      push_cast
      omega
  · intro i _ ⟨ih1, ih2⟩
    rw [← arrive_row_end]
    refine ⟨ih1, fun hgt => ?_⟩
    have hpast := ih2 hgt
    unfold lexLt at hpast ⊢
    push_cast
    omega

/-- With an ascending sequence in which the entries `k < k2` share a coordinate, the
source test fails at every cell strictly behind that coordinate. -/
theorem atSource_after_duplicate (hasc : SourcesAscending srcs) (grid : Grid α)
    (k k2 : Nat) (s t : source_point α)
    (hs : srcs[k]? = some s) (ht : srcs[k2]? = some t) (hk : k < k2)
    (hx : s.x = t.x) (hy : s.y = t.y) (i j : Nat) (hi : i < m) (hj : j < n)
    (hpast : lexLt s.x s.y i j) :
    ¬ atSource srcs slots (arrive f n m srcs slots cyc grid i j).counter i j = true := by
  intro hat
  obtain ⟨hk2lt, htk⟩ := List.getElem?_eq_some.mp ht
  have hle := (cursor_stall f n m srcs slots cyc grid k k2 s t hs ht hk hx hy i j
    (Or.inl ⟨hi, by omega⟩)).1
  have hc : (arrive f n m srcs slots cyc grid i j).counter < srcs.length := by omega
  obtain ⟨hcx, hcy⟩ := (atSource_entry hc).mp hat
  have hord := ascending_le hasc _ k2 hle hk2lt
  rw [htk, hcx, hcy] at hord
  unfold lexLt at hord hpast
  omega

/-- When the entries up to `k` are strictly sorted and entry `k + 1` repeats the
coordinate of entry `k`, the cursor walks the first `k + 1` entries in lockstep with
the scan. -/
theorem lockstep_prefix (hb : SourcesInBounds n m srcs) (grid : Grid α) (k : Nat)
    (hfirst : SourcesSorted (srcs.take (k + 1))) (s u : source_point α)
    (hs : srcs[k]? = some s) (hu : srcs[k + 1]? = some u)
    (hx : s.x = u.x) (hy : s.y = u.y) :
    ∀ i j, (i < m ∧ j ≤ n) ∨ (i = m ∧ j = 0) →
      Lockstep (srcs.take (k + 1)) i j (arrive f n m srcs slots cyc grid i j).counter := by
  obtain ⟨hult, huk⟩ := List.getElem?_eq_some.mp hu
  have hstall := cursor_stall f n m srcs slots cyc grid k (k + 1) s u hs hu
    (Nat.lt_succ_self k) hx hy
  have hlen : (srcs.take (k + 1)).length = k + 1 := List.length_take_of_le (by omega)
  refine arrive_induction f n m srcs slots cyc grid
    (fun i j st => Lockstep (srcs.take (k + 1)) i j st.counter)
    (lockstep_init (sourcesInBounds_take hb _)) ?_ ?_
  · intro i j hi hj ih
    have hstep := lockstep_step (fun _ => ({ x := -1, y := -1, value := s.value } :
      source_point α)) hfirst ih
    have hc := hstall i j (Or.inl ⟨hi, by omega⟩)
    have hsame : atSource (srcs.take (k + 1))
        (fun _ => ({ x := -1, y := -1, value := s.value } : source_point α))
        (arrive f n m srcs slots cyc grid i j).counter i j =
        atSource srcs slots (arrive f n m srcs slots cyc grid i j).counter i j := by
      rcases Nat.eq_or_lt_of_le hc.1 with heq | hlt
      · have hleft : atSource (srcs.take (k + 1))
            (fun _ => ({ x := -1, y := -1, value := s.value } : source_point α))
            (arrive f n m srcs slots cyc grid i j).counter i j = false := by
          rw [Bool.eq_false_iff]
          intro hat
          obtain ⟨hsx, _⟩ := (atSource_slot (by omega)).mp hat
          have hneg : (-1 : Int) = (i : Int) := hsx
          omega
        rw [hleft]
        symm
        rw [Bool.eq_false_iff]
        intro hat
        obtain ⟨hcx, hcy⟩ := (atSource_entry (by omega)).mp hat
        have hpast := hc.2 (by omega)
        simp only [heq, huk] at hcx hcy
        unfold lexLt at hpast
        omega
      · exact atSource_take srcs slots _ k _ i j (by omega) (by omega)
    rw [arrive_succ, cellStep_counter, ← hsame]
    split_ifs with hat
    · rw [if_pos hat] at hstep
      exact hstep
    · rw [if_neg hat] at hstep
      exact hstep
  · intro i _ ih
    rw [← arrive_row_end]
    exact lockstep_row (sourcesInBounds_take hb _) ih

end Duplicates

/-! ### Evaluating a sweep of a `1 × 2` grid -/

/-- A sweep of a `1 × 2` grid is the step at `(0, 0)` followed by the step at
`(0, 1)`. -/
theorem sweep_one_by_two [Zero α] [Add α] (f : α → α → α → α → α → α)
    (srcs : List (source_point α)) (slots : Nat → source_point α) (cyc : Int)
    (g : Grid α) :
    sweep f 2 1 srcs slots cyc g =
      cellStep f 2 1 srcs slots cyc 0 (prevIndex 0 1) 1
        (cellStep f 2 1 srcs slots cyc 0 (prevIndex 0 1) 0
          { grid := g, counter := 0, currSum := 0 }) := rfl

/-- The cyclic sweep with the averaging kernel over a `1 × 2` grid whose last cell is
the one source: the first cell gets `(3 * g 0 0 + 2 * g 0 1) / 5`. -/
theorem sweep_rational (slots : Nat → source_point ℚ) (g : Grid ℚ) :
    sweep avgKernel 2 1 rationalSource slots 1 g =
      { grid := g.write 0 0 ((3 * g 0 0 + 2 * g 0 1) / 5)
        counter := 1
        currSum := (3 * g 0 0 + 2 * g 0 1) / 5 } := by
  have h0 : atSource rationalSource slots 0 0 0 = false := rfl
  have h1 : atSource rationalSource slots 0 0 1 = true := rfl
  have hv : avgKernel (g 0 0) (g 0 1) (g 0 0) (g 0 1) (g 0 0) =
      (3 * g 0 0 + 2 * g 0 1) / 5 := by
    unfold avgKernel
    ring
  rw [sweep_one_by_two]
  simp only [cellStep, h0, h1, updateCell, resolve, cyclicCheck, prevIndex]
  norm_num [hv]
  exact h1

/-- In the cyclic mode the update at an in-bounds cell stores the kernel applied to
the cell and its four wrapped neighbours, read from the grid on arrival, and adds it
to the sum. -/
theorem updateCell_cyclic [Zero α] [Add α] (f : α → α → α → α → α → α) (n m : Nat)
    (cyc : Int) (hcyc : cyc ≠ 0) (i j : Nat) (hi : i < m) (hj : j < n)
    (st : SweepState α) :
    updateCell f n m cyc i (prevIndex i m) j st =
      { grid := st.grid.write i j
          (f (st.grid i j) (st.grid i ((j + 1) % n))
            (st.grid (((i : Int) - 1) % (m : Int)).toNat j)
            (st.grid i (((j : Int) - 1) % (n : Int)).toNat)
            (st.grid ((i + 1) % m) j))
        counter := st.counter
        currSum := st.currSum +
          f (st.grid i j) (st.grid i ((j + 1) % n))
            (st.grid (((i : Int) - 1) % (m : Int)).toNat j)
            (st.grid i (((j : Int) - 1) % (n : Int)).toNat)
            (st.grid ((i + 1) % m) j) } := by
  unfold updateCell resolve
  simp only [cyclicCheck_cyclic n m cyc hcyc, prevIndex_eq_emod i m hi,
    prevIndex_eq_emod j n hj]

/-! ### The claims about `calculate` -/

section Claims

variable [LinearOrderedRing α]

/-- C1 (source invariance): for every update function, boundary mode, threshold and
`n_iter ≥ 1`, if the sources are sorted strictly ascending by (row, column) and in
bounds, then `calculate` returns (given fuel for `n_iter` sweeps), and in the grid it
leaves every source cell holds the value it held before the call.  This holds for
every grid size, in particular for `m ≥ 1` and `n ≥ 1`, and whatever the memory
behind the sources holds. -/
theorem source_invariance (f : α → α → α → α → α → α) (grid : Grid α) (n m : Nat)
    (srcs : List (source_point α)) (slots : Nat → source_point α) (terminate : α)
    (n_iter : Nat) (cyc : Int)
    (fuel : Nat) (hiter : 1 ≤ n_iter) (hfuel : n_iter ≤ fuel)
    (hs : SourcesSorted srcs) (hb : SourcesInBounds n m srcs) :
    ∃ res, calculate fuel f grid n m srcs slots terminate n_iter cyc = some res ∧
      ∀ s ∈ srcs, res.grid s.x.toNat s.y.toNat = grid s.x.toNat s.y.toNat := by
  obtain ⟨r, _, _, _, _, hres⟩ :=
    calculate_spec f n m srcs slots terminate n_iter cyc grid fuel hiter hfuel
  refine ⟨_, hres, fun s hmem => ?_⟩
  exact gridAfter_source_fixed f n m srcs slots cyc hs hb grid _ _ (isSource_of_mem hb hmem) r

/-- The hypotheses of the preceding theorem hold on sample data, and so does its
conclusion. -/
theorem source_invariance_witness :
    ((1 : Nat) ≤ 3 ∧ (3 : Nat) ≤ 3 ∧ SourcesSorted sampleSources ∧
        SourcesInBounds 2 2 sampleSources) ∧
      ∃ res, calculate 3 sampleKernel sampleGrid 2 2 sampleSources zeroSlots 1 3 0 = some res ∧
        ∀ s ∈ sampleSources,
          res.grid s.x.toNat s.y.toNat = sampleGrid s.x.toNat s.y.toNat :=
  ⟨⟨by decide, by decide, by decide, by decide⟩,
    source_invariance sampleKernel sampleGrid 2 2 sampleSources zeroSlots 1 3 0 3
      (by decide) (by decide) (by decide) (by decide)⟩

/-- C2: on the `1 × 2` grid `[10, 0]` in the non-cyclic mode, cell `(0, 0)` receives
`top = 0` but `bottom = 10`: the test `i == m - 1` sits in the `else` branch of
`i == 0`, so on a one-row grid `bottom` keeps the wrapped value, the cell itself.
With the source of the grid in its last cell, whatever the memory behind it holds, a
sweep with the kernel returning `bottom` leaves `10` in cell `(0, 0)`, and a sweep
with the sample kernel leaves `10 + 7 * 10 = 80`, where `bottom = 0` would give
`10`. -/
theorem clamped_one_row_bottom :
    (resolve 2 1 0 rowGrid 0 (prevIndex 0 1) 0).top = 0 ∧
      (resolve 2 1 0 rowGrid 0 (prevIndex 0 1) 0).bottom = 10 ∧
      (∀ slots : Nat → source_point ℤ,
        (sweep bottomKernel 2 1 lastSource slots 0 rowGrid).grid 0 0 = 10) ∧
      (∀ slots : Nat → source_point ℤ,
        (sweep sampleKernel 2 1 lastSource slots 0 rowGrid).grid 0 0 = 80) :=
  ⟨by decide, by decide, fun _ => rfl, fun _ => rfl⟩

/-- C3: on the cyclic `1 × 2` grid `[10, 0]` without sources, the source test at the
first cell reads the slot behind the empty sequence; when the slot reads `(0, 0)` the
test succeeds, the cell `(0, 0)`, which is no source, is skipped and keeps `10`, and
the update function is not called for it.  The call the claim describes, with
`top = bottom = grid[0][0]` and `left = right = grid[0][1]`, would store `110`. -/
theorem cyclic_cell_skipped_without_sources :
    ¬ IsSource ([] : List (source_point ℤ)) 0 0 ∧
      atSource ([] : List (source_point ℤ)) zeroSlots 0 0 0 = true ∧
      (arrive sampleKernel 2 1 [] zeroSlots 1 rowGrid 0 1).counter = 1 ∧
      (arrive sampleKernel 2 1 [] zeroSlots 1 rowGrid 0 1).grid 0 0 = 10 ∧
      (sweep sampleKernel 2 1 [] zeroSlots 1 rowGrid).grid 0 0 = 10 ∧
      sampleKernel (rowGrid 0 0) (rowGrid 0 ((0 + 1) % 2))
        (rowGrid (((0 : Int) - 1) % 1).toNat 0) (rowGrid 0 (((0 : Int) - 1) % 2).toNat)
        (rowGrid ((0 + 1) % 1) 0) = 110 := by
  decide

/-- C4 (convergence-loop decision): with `S 0 = 0` and `S k` the sum accumulated by
the `k`-th sweep, for `n_iter ≥ 1` and every threshold (in particular `≥ 0`)
`calculate` makes exactly `r` sweeps, `r` being the least `r ≥ 1` with `r = n_iter` or
`|S r - S (r-1)| < terminate`; it returns `|S r - S (r-1)|`, which is non-negative,
and which is below the threshold when `r < n_iter`. -/
theorem convergence_decision (f : α → α → α → α → α → α) (grid : Grid α) (n m : Nat)
    (srcs : List (source_point α)) (slots : Nat → source_point α) (terminate : α)
    (n_iter : Nat) (cyc : Int)
    (fuel : Nat) (hiter : 1 ≤ n_iter) (hfuel : n_iter ≤ fuel) :
    ∃ r, 1 ≤ r ∧
      (r = n_iter ∨
        |sumAfter f n m srcs slots cyc grid r - sumAfter f n m srcs slots cyc grid (r - 1)|
          < terminate) ∧
      (∀ k, 1 ≤ k → k < r →
        ¬ (k = n_iter ∨
          |sumAfter f n m srcs slots cyc grid k - sumAfter f n m srcs slots cyc grid (k - 1)|
            < terminate)) ∧
      calculate fuel f grid n m srcs slots terminate n_iter cyc =
        some { diff := |sumAfter f n m srcs slots cyc grid r -
                        sumAfter f n m srcs slots cyc grid (r - 1)|
               grid := gridAfter f n m srcs slots cyc grid r
               rounds := r } ∧
      0 ≤ |sumAfter f n m srcs slots cyc grid r - sumAfter f n m srcs slots cyc grid (r - 1)| ∧
      (r < n_iter →
        |sumAfter f n m srcs slots cyc grid r - sumAfter f n m srcs slots cyc grid (r - 1)|
          < terminate) := by
  obtain ⟨r, h1, h2, h3, h4, h5⟩ :=
    calculate_spec f n m srcs slots terminate n_iter cyc grid fuel hiter hfuel
  refine ⟨r, h1, h3, h4, h5, abs_nonneg _, fun hlt => ?_⟩
  rcases h3 with h | h
  · omega
  · exact h

/-- The hypotheses of the preceding theorem hold on sample data, and so does its
conclusion. -/
theorem convergence_decision_witness :
    ((1 : Nat) ≤ 3 ∧ (3 : Nat) ≤ 4) ∧
      ∃ r, 1 ≤ r ∧
        (r = 3 ∨
          |sumAfter sampleKernel 2 2 sampleSources zeroSlots 0 sampleGrid r -
              sumAfter sampleKernel 2 2 sampleSources zeroSlots 0 sampleGrid (r - 1)| < 1) ∧
        (∀ k, 1 ≤ k → k < r →
          ¬ (k = 3 ∨
            |sumAfter sampleKernel 2 2 sampleSources zeroSlots 0 sampleGrid k -
                sumAfter sampleKernel 2 2 sampleSources zeroSlots 0 sampleGrid (k - 1)| < 1)) ∧
        calculate 4 sampleKernel sampleGrid 2 2 sampleSources zeroSlots 1 3 0 =
          some { diff := |sumAfter sampleKernel 2 2 sampleSources zeroSlots 0 sampleGrid r -
                          sumAfter sampleKernel 2 2 sampleSources zeroSlots 0 sampleGrid (r - 1)|
                 grid := gridAfter sampleKernel 2 2 sampleSources zeroSlots 0 sampleGrid r
                 rounds := r } ∧
        0 ≤ |sumAfter sampleKernel 2 2 sampleSources zeroSlots 0 sampleGrid r -
              sumAfter sampleKernel 2 2 sampleSources zeroSlots 0 sampleGrid (r - 1)| ∧
        (r < 3 →
          |sumAfter sampleKernel 2 2 sampleSources zeroSlots 0 sampleGrid r -
              sumAfter sampleKernel 2 2 sampleSources zeroSlots 0 sampleGrid (r - 1)| < 1) :=
  ⟨⟨by decide, by decide⟩,
    convergence_decision sampleKernel sampleGrid 2 2 sampleSources zeroSlots 1 3 0 4
      (by decide) (by decide)⟩

/-- C5: on the `1 × 2` grid `[10, 0]` without sources (sorted and in bounds), when
the slot behind the empty sequence reads `(0, 0)`, the sweep skips the cell `(0, 0)`:
it accumulates `50`, while the two cells, neither of them a source, hold `10` and `50`
afterwards, `60` in all; and `calculate` with `n_iter = 1` returns `50`. -/
theorem sweep_sum_misses_skipped_cell :
    SourcesSorted ([] : List (source_point ℤ)) ∧
      SourcesInBounds 2 1 ([] : List (source_point ℤ)) ∧
      (sweep sampleKernel 2 1 [] zeroSlots 0 rowGrid).currSum = 50 ∧
      (sweep sampleKernel 2 1 [] zeroSlots 0 rowGrid).grid 0 0 = 10 ∧
      (sweep sampleKernel 2 1 [] zeroSlots 0 rowGrid).grid 0 1 = 50 ∧
      (∑ a ∈ Finset.range 1, ∑ b ∈ Finset.range 2,
        (if IsSource ([] : List (source_point ℤ)) a b then 0
          else (sweep sampleKernel 2 1 [] zeroSlots 0 rowGrid).grid a b)) = 60 ∧
      (calculate 1 sampleKernel rowGrid 2 1 [] zeroSlots 0 1 0).map (fun r => r.diff) =
        some 50 := by
  decide

/-- C6 (iteration cap): with threshold `0` and `n_iter = K ≥ 1`, for every grid,
sources, boundary mode and update function, `calculate` makes exactly `K` full sweeps
and then returns: the local `rounds` is `K` and the grid is the one after `K` sweeps. -/
theorem iteration_cap (f : α → α → α → α → α → α) (grid : Grid α) (n m : Nat)
    (srcs : List (source_point α)) (slots : Nat → source_point α) (K : Nat)
    (cyc : Int) (fuel : Nat)
    (hK : 1 ≤ K) (hfuel : K ≤ fuel) :
    ∃ res, calculate fuel f grid n m srcs slots 0 K cyc = some res ∧
      res.rounds = K ∧ res.grid = gridAfter f n m srcs slots cyc grid K := by
  obtain ⟨r, _, _, h3, _, h5⟩ := calculate_spec f n m srcs slots 0 K cyc grid fuel hK hfuel
  have hr : r = K := by
    rcases h3 with h | h
    · exact h
    · exact absurd (abs_nonneg _) (not_le.mpr h)
  subst hr
  exact ⟨_, h5, rfl, rfl⟩

/-- The hypotheses of the preceding theorem hold on sample data, and so does its
conclusion. -/
theorem iteration_cap_witness :
    ((1 : Nat) ≤ 3 ∧ (3 : Nat) ≤ 5) ∧
      ∃ res, calculate 5 sampleKernel sampleGrid 2 2 sampleSources zeroSlots 0 3 1 = some res ∧
        res.rounds = 3 ∧ res.grid = gridAfter sampleKernel 2 2 sampleSources zeroSlots 1 sampleGrid 3 :=
  ⟨⟨by decide, by decide⟩,
    iteration_cap sampleKernel sampleGrid 2 2 sampleSources zeroSlots 3 1 5 (by decide) (by decide)⟩

/-- C7 (termination): for every `n_iter ≥ 1`, every threshold, grid, sources sequence
(sorted or not) and update function, `calculate` returns as soon as it is given fuel
for `n_iter` sweeps; it has then made `rounds` sweeps with `1 ≤ rounds ≤ n_iter`. -/
theorem calculate_terminates (f : α → α → α → α → α → α) (grid : Grid α) (n m : Nat)
    (srcs : List (source_point α)) (slots : Nat → source_point α) (terminate : α)
    (n_iter : Nat) (cyc : Int)
    (fuel : Nat) (hiter : 1 ≤ n_iter) (hfuel : n_iter ≤ fuel) :
    ∃ res, calculate fuel f grid n m srcs slots terminate n_iter cyc = some res ∧
      1 ≤ res.rounds ∧ res.rounds ≤ n_iter ∧
      res.grid = gridAfter f n m srcs slots cyc grid res.rounds := by
  obtain ⟨r, h1, h2, _, _, h5⟩ :=
    calculate_spec f n m srcs slots terminate n_iter cyc grid fuel hiter hfuel
  exact ⟨_, h5, h1, h2, rfl⟩

/-- The hypotheses of the preceding theorem hold on sample data, and so does its
conclusion. -/
theorem calculate_terminates_witness :
    ((1 : Nat) ≤ 2 ∧ (2 : Nat) ≤ 2) ∧
      ∃ res, calculate 2 sampleKernel sampleGrid 2 2 sampleSources zeroSlots (-1) 2 0 = some res ∧
        1 ≤ res.rounds ∧ res.rounds ≤ 2 ∧
        res.grid = gridAfter sampleKernel 2 2 sampleSources zeroSlots 0 sampleGrid res.rounds :=
  ⟨⟨by decide, by decide⟩,
    calculate_terminates sampleKernel sampleGrid 2 2 sampleSources zeroSlots (-1) 2 0 2 (by decide) (by decide)⟩

/-- C8, as stated, fails: take the `1 × 2` grid `[0, 5]` that `gridCreation` builds
for one source of heat `5` in its last cell, the cyclic mode, the averaging kernel
and the threshold `3`.  A call with `n_iter = 5` returns the difference `2 < 3` after
one sweep, and the next call on the resulting grid `[2, 5]` with `n_iter = 1` returns
`16/5`, which is not below `3`.  No read leaves the sequence on this input. -/
theorem rerun_not_below_threshold :
    ∃ res1 res2 : CalcResult ℚ,
      calculate 5 avgKernel rationalGrid 2 1 rationalSource zeroSlots 3 5 1 = some res1 ∧
      res1.diff < 3 ∧
      calculate 1 avgKernel res1.grid 2 1 rationalSource zeroSlots 3 1 1 = some res2 ∧
      ¬ res2.diff < 3 := by
  have hS0 : sumAfter avgKernel 2 1 rationalSource zeroSlots 1 rationalGrid 0 = 0 := rfl
  have hS1 : sumAfter avgKernel 2 1 rationalSource zeroSlots 1 rationalGrid 1 = 2 := by
    show (sweep avgKernel 2 1 rationalSource zeroSlots 1 rationalGrid).currSum = 2
    rw [sweep_rational]
    norm_num [rationalGrid]
  have hG1 : gridAfter avgKernel 2 1 rationalSource zeroSlots 1 rationalGrid 1 =
      rationalGrid.write 0 0 ((3 * rationalGrid 0 0 + 2 * rationalGrid 0 1) / 5) := by
    show (sweep avgKernel 2 1 rationalSource zeroSlots 1 rationalGrid).grid = _
    rw [sweep_rational]
  obtain ⟨r, h1, h2, h3, h4, h5⟩ :=
    calculate_spec avgKernel 2 1 rationalSource zeroSlots (3 : ℚ) 5 1 rationalGrid 5
      (by decide) (by decide)
  have hstop : StopsAt (sumAfter avgKernel 2 1 rationalSource zeroSlots 1 rationalGrid)
      (3 : ℚ) 5 1 := by
    right
    rw [hS1, hS0]
    norm_num
  have hr : r = 1 := by
    by_contra hne
    exact h4 1 (le_refl 1) (by omega) hstop
  subst hr
  refine ⟨_, _, h5, ?_,
    calculate_one avgKernel _ 2 1 rationalSource zeroSlots 3 1 1 (le_refl 1), ?_⟩
  · show |sumAfter avgKernel 2 1 rationalSource zeroSlots 1 rationalGrid 1 -
      sumAfter avgKernel 2 1 rationalSource zeroSlots 1 rationalGrid 0| < 3
    rw [hS1, hS0]
    norm_num
  · show ¬ |(sweep avgKernel 2 1 rationalSource zeroSlots 1
        (gridAfter avgKernel 2 1 rationalSource zeroSlots 1 rationalGrid 1)).currSum| < 3
    rw [sweep_rational, hG1]
    norm_num [rationalGrid, Grid.write]
    rw [abs_of_pos (by norm_num)]
    norm_num

/-- C8, amended: for every kernel (the averaging one included) and every grid (in
particular the one a converged call left), a call with `n_iter = 1` makes exactly one
sweep and returns `|S|`, the absolute value of that sweep's sum, the previous sum
being `0` again; so the returned difference is below the threshold exactly when
`|S|` is. -/
theorem rerun_returns_sweep_sum (f : α → α → α → α → α → α) (grid : Grid α) (n m : Nat)
    (srcs : List (source_point α)) (slots : Nat → source_point α) (terminate : α)
    (cyc : Int) (fuel : Nat)
    (hfuel : 1 ≤ fuel) :
    ∃ res, calculate fuel f grid n m srcs slots terminate 1 cyc = some res ∧
      res.rounds = 1 ∧
      res.grid = (sweep f n m srcs slots cyc grid).grid ∧
      res.diff = |(sweep f n m srcs slots cyc grid).currSum| ∧
      (res.diff < terminate ↔ |(sweep f n m srcs slots cyc grid).currSum| < terminate) :=
  ⟨_, calculate_one f grid n m srcs slots terminate cyc fuel hfuel, rfl, rfl, rfl, Iff.rfl⟩

/-- The hypotheses of the preceding theorem hold on sample data, and so does its
conclusion. -/
theorem rerun_returns_sweep_sum_witness :
    ((1 : Nat) ≤ 1) ∧
      ∃ res, calculate 1 sampleKernel sampleGrid 2 2 sampleSources zeroSlots 1 1 0 = some res ∧
        res.rounds = 1 ∧
        res.grid = (sweep sampleKernel 2 2 sampleSources zeroSlots 0 sampleGrid).grid ∧
        res.diff = |(sweep sampleKernel 2 2 sampleSources zeroSlots 0 sampleGrid).currSum| ∧
        (res.diff < 1 ↔ |(sweep sampleKernel 2 2 sampleSources zeroSlots 0 sampleGrid).currSum| < 1) :=
  ⟨by decide,
    rerun_returns_sweep_sum sampleKernel sampleGrid 2 2 sampleSources zeroSlots 1 0 1
      (by decide)⟩

/-- C9: on a uniform grid without sources in the cyclic mode, when the slot behind
the empty sequence reads `(0, 0)` the sweep skips the first cell, so the sum counts
one cell less than `m * n`: with the averaging kernel on the `1 × 2` grid of ones the
sum is `1`, not `1 * 2 * 1`, and with the kernel returning `bottom` on the `2 × 3`
grid of ones it is `5`, not `2 * 3 * 1`. -/
theorem uniform_sum_misses_first_cell :
    avgKernel (1 : ℚ) 1 1 1 1 = 1 ∧
      (∀ a b, unitGrid a b = 1) ∧
      (sweep avgKernel 2 1 [] zeroSlots 1 unitGrid).currSum = 1 ∧
      ((1 : Nat) : ℚ) * ((2 : Nat) : ℚ) * 1 = 2 ∧
      bottomKernel 1 1 1 1 1 = 1 ∧
      (∀ a b, onesGrid a b = 1) ∧
      (sweep bottomKernel 3 2 [] zeroSlots 1 onesGrid).currSum = 5 ∧
      ((2 : Nat) : ℤ) * ((3 : Nat) : ℤ) * 1 = 6 := by
  have h0 : atSource ([] : List (source_point ℚ)) zeroSlots 0 0 0 = true := rfl
  have h1 : atSource ([] : List (source_point ℚ)) zeroSlots 1 0 1 = false := rfl
  refine ⟨by norm_num [avgKernel], fun _ _ => rfl, ?_, by norm_num, by decide,
    fun _ _ => rfl, by decide, by decide⟩
  rw [sweep_one_by_two]
  simp only [cellStep, h0, h1, updateCell, resolve, cyclicCheck, prevIndex]
  norm_num [avgKernel, unitGrid, h1]

/-- C10: on the `1 × 2` grid of ones without sources in the non-cyclic mode, with
the averaging kernel, when the slot behind the empty sequence reads `(0, 0)` the
sweep skips the corner cell `(0, 0)`, which keeps the value `1` and so is not
strictly below it. -/
theorem corner_kept_without_sources :
    (0 : ℚ) < 1 ∧ (∀ a b, unitGrid a b = 1) ∧
      atSource ([] : List (source_point ℚ)) zeroSlots 0 0 0 = true ∧
      (sweep avgKernel 2 1 [] zeroSlots 0 unitGrid).grid 0 0 = 1 :=
  ⟨by decide, fun _ _ => rfl, rfl, by decide⟩

/-- C12: on a `2 × 2` grid without sources (sorted and in bounds), when the slot
behind the empty sequence reads `(0, 0)` the source test succeeds at the cell
`(0, 0)`, which is no source, and the sweep calls the update function `3` times, not
`2 * 2 - 0 = 4` times. -/
theorem update_count_without_sources :
    SourcesSorted ([] : List (source_point ℤ)) ∧
      SourcesInBounds 2 2 ([] : List (source_point ℤ)) ∧
      ¬ IsSource ([] : List (source_point ℤ)) 0 0 ∧
      atSource ([] : List (source_point ℤ)) zeroSlots
        (arrive sampleKernel 2 2 [] zeroSlots 0 sampleGrid 0 0).counter 0 0 = true ∧
      updateCount sampleKernel 2 2 [] zeroSlots 0 sampleGrid = 3 ∧
      2 * 2 - ([] : List (source_point ℤ)).length = 4 := by
  decide

/-- C13 (sortedness is required): the sources `[(0,1), (0,0)]` of a `1 × 2` grid are
distinct and in bounds but not in row-major order, and one sweep with the sample
kernel overwrites the source cell `(0, 0)`, whatever the memory behind the sequence
holds: it held `7` and holds `66` afterwards. -/
theorem unsorted_source_overwritten :
    ¬ SourcesSorted unsortedSources ∧ SourcesInBounds 2 1 unsortedSources ∧
      (unsortedSources.map (fun s => (s.x, s.y))).Nodup ∧
      IsSource unsortedSources 0 0 ∧ unsortedGrid 0 0 = 7 ∧
      (∀ slots : Nat → source_point ℤ,
        (sweep sampleKernel 2 1 unsortedSources slots 0 unsortedGrid).grid 0 0 = 66) :=
  ⟨by decide, by decide, by decide, by decide, by decide, fun _ => rfl⟩

/-- C14: the source test reads `sources[counter]` with `counter` equal to the number
of sources.  Without sources the first cell reads index `0` of an empty sequence, and
on the sample grid the cell `(1, 1)`, scanned after the last source, reads index `2`
of a sequence of length `2`; in both cases the read yields the slot the memory holds
behind the sequence. -/
theorem source_read_past_end :
    (∀ slots : Nat → source_point ℤ,
        (arrive sampleKernel 1 1 [] slots 0 rowGrid 0 0).counter = 0) ∧
      ([] : List (source_point ℤ)).length = 0 ∧
      (∀ slots : Nat → source_point ℤ,
        (arrive sampleKernel 2 2 sampleSources slots 0 sampleGrid 1 1).counter = 2) ∧
      sampleSources.length = 2 ∧
      (∀ slots : Nat → source_point ℤ, readSource [] slots 0 = slots 0) ∧
      (∀ slots : Nat → source_point ℤ, readSource sampleSources slots 2 = slots 0) :=
  ⟨fun _ => rfl, rfl, fun _ => rfl, rfl, fun _ => rfl, fun _ => rfl⟩

/-- C16 (duplicate source coordinates stall the cursor): let the sources be in
ascending order and let the entries `k < k2` have the same coordinate `c`.  Then in a
sweep the cursor never moves past entry `k + 1`, the second entry at `c`; every cell
strictly after `c` in row-major order, a source or not, fails the source test and is
updated, the sweep leaving the kernel's result in it; and when the entries up to `k`
are strictly sorted and in bounds the cursor stands at `k + 1` at every cell after
`c`. -/
theorem duplicate_stalls_cursor (f : α → α → α → α → α → α) (grid : Grid α) (n m : Nat)
    (srcs : List (source_point α)) (slots : Nat → source_point α) (cyc : Int)
    (k k2 : Nat) (s t : source_point α)
    (hasc : SourcesAscending srcs)
    (hs : srcs[k]? = some s) (ht : srcs[k2]? = some t) (hk : k < k2)
    (hx : s.x = t.x) (hy : s.y = t.y) :
    (∀ i j, (i < m ∧ j ≤ n) ∨ (i = m ∧ j = 0) →
        (arrive f n m srcs slots cyc grid i j).counter ≤ k + 1) ∧
      (∀ i j, i < m → j < n → lexLt s.x s.y i j →
        atSource srcs slots (arrive f n m srcs slots cyc grid i j).counter i j = false ∧
          arrive f n m srcs slots cyc grid i (j + 1) =
            updateCell f n m cyc i (prevIndex i m) j (arrive f n m srcs slots cyc grid i j) ∧
          (sweep f n m srcs slots cyc grid).grid i j =
            f ((arrive f n m srcs slots cyc grid i j).grid i j)
              (resolve n m cyc (arrive f n m srcs slots cyc grid i j).grid i
                (prevIndex i m) j).right
              (resolve n m cyc (arrive f n m srcs slots cyc grid i j).grid i
                (prevIndex i m) j).top
              (resolve n m cyc (arrive f n m srcs slots cyc grid i j).grid i
                (prevIndex i m) j).left
              (resolve n m cyc (arrive f n m srcs slots cyc grid i j).grid i
                (prevIndex i m) j).bottom) ∧
      (SourcesSorted (srcs.take (k + 1)) → SourcesInBounds n m srcs →
        ∀ i j, (i < m ∧ j ≤ n) ∨ (i = m ∧ j = 0) → lexLt s.x s.y i j →
          (arrive f n m srcs slots cyc grid i j).counter = k + 1) := by
  obtain ⟨hklt, hsk⟩ := List.getElem?_eq_some.mp hs
  obtain ⟨hk2lt, htk⟩ := List.getElem?_eq_some.mp ht
  have hk1 : k + 1 < srcs.length := by omega
  have hu : srcs[k + 1]? = some srcs[k + 1] := List.getElem?_eq_getElem hk1
  have hlo := ascending_le hasc k (k + 1) (Nat.le_succ k) hk1
  have hhi := ascending_le hasc (k + 1) k2 (by omega) hk2lt
  rw [hsk] at hlo
  rw [htk] at hhi
  have hux : s.x = (srcs[k + 1]).x := by
    unfold lexLt at hlo hhi
    omega
  have huy : s.y = (srcs[k + 1]).y := by
    unfold lexLt at hlo hhi
    omega
  have hstall := cursor_stall f n m srcs slots cyc grid k (k + 1) s _ hs hu (Nat.lt_succ_self k)
    hux huy
  refine ⟨fun i j hv => (hstall i j hv).1, fun i j hi hj hpast => ?_,
    fun hfirst hb i j hv hpast => ?_⟩
  · have hat := atSource_after_duplicate f n m srcs slots cyc hasc grid k k2 s t hs ht hk hx hy
      i j hi hj hpast
    have hstep : arrive f n m srcs slots cyc grid i (j + 1) =
        updateCell f n m cyc i (prevIndex i m) j (arrive f n m srcs slots cyc grid i j) := by
      rw [arrive_succ]
      unfold cellStep
      rw [if_neg hat]
    refine ⟨Bool.eq_false_iff.mpr hat, hstep, ?_⟩
    rw [sweep_grid_final f n m srcs slots cyc grid i j hi hj, hstep]
    unfold updateCell
    simp only [write_same]
  · have hl := lockstep_prefix f n m srcs slots cyc hb grid k hfirst s _ hs hu hux huy i j hv
    have hlen : (srcs.take (k + 1)).length = k + 1 := List.length_take_of_le (by omega)
    have hle := (hstall i j hv).1
    by_contra hne
    have hlt : (arrive f n m srcs slots cyc grid i j).counter ≤ k := by omega
    apply hl.2 k (by omega) hlt
    rw [List.getElem_take, hsk]
    exact hpast

/-- The hypotheses of the preceding theorem hold on sample data, and so does its
conclusion at the source cell `(0, 1)`, which the sweep overwrites. -/
theorem duplicate_stalls_cursor_witness :
    (SourcesAscending dupSources ∧
        dupSources[0]? = some dupSources[0] ∧ dupSources[1]? = some dupSources[1] ∧
        0 < 1 ∧ (dupSources[0]).x = (dupSources[1]).x ∧
        (dupSources[0]).y = (dupSources[1]).y ∧
        lexLt (dupSources[0]).x (dupSources[0]).y ((0 : Nat) : Int) ((1 : Nat) : Int)) ∧
      (IsSource dupSources 0 1 ∧ unsortedGrid 0 1 = 5 ∧
        (sweep sampleKernel 2 1 dupSources zeroSlots 0 unsortedGrid).grid 0 1 = 75) ∧
      atSource dupSources zeroSlots (arrive sampleKernel 2 1 dupSources zeroSlots 0 unsortedGrid 0 1).counter
        0 1 = false :=
  ⟨⟨by decide, rfl, rfl, by decide, by decide, by decide, by decide⟩, by decide,
    ((duplicate_stalls_cursor sampleKernel unsortedGrid 2 1 dupSources zeroSlots 0 0 1
      dupSources[0] dupSources[1] (by decide) rfl rfl (by decide) (by decide)
      (by decide)).2.1 0 1 (by decide) (by decide) (by decide)).1⟩

end Claims

/-! ### The reader -/

/-- C15 (the comparator): for source points with non-negative `int` coordinates
neither subtraction of `helper` overflows, `helper a b < 0` exactly when `a` comes
before `b` in (row, column) order, `helper a b = 0` exactly when the coordinates are
equal, and `helper a b > 0` exactly when `b` comes before `a`; hence a sequence that
`qsort` has ordered by `helper` is in ascending row-major order. -/
theorem helper_lexicographic (a b : source_point α) (ha : CoordsInt a)
    (hb : CoordsInt b) :
    (wrapInt (a.x - b.x) = a.x - b.x ∧ wrapInt (a.y - b.y) = a.y - b.y) ∧
      (helper a b < 0 ↔ lexLt a.x a.y b.x b.y) ∧
      (helper a b = 0 ↔ a.x = b.x ∧ a.y = b.y) ∧
      (0 < helper a b ↔ lexLt b.x b.y a.x a.y) ∧
      (∀ l : List (source_point α), (∀ s ∈ l, CoordsInt s) →
        l.Pairwise (fun s t => helper s t ≤ 0) → SourcesAscending l) := by
  have he := helper_eq a b ha hb
  obtain ⟨h1, h2, h3, h4⟩ := ha
  obtain ⟨h5, h6, h7, h8⟩ := hb
  refine ⟨⟨wrapInt_sub _ _ h1 h2 h5 h6, wrapInt_sub _ _ h3 h4 h7 h8⟩, ?_, ?_, ?_, ?_⟩
  · rw [he]
    unfold lexLt
    split_ifs <;> omega
  · rw [he]
    split_ifs <;> omega
  · rw [he]
    unfold lexLt
    split_ifs <;> omega
  · intro l hl hp
    unfold SourcesAscending
    refine hp.imp_of_mem ?_
    intro s t hs ht hle
    rw [helper_eq s t (hl s hs) (hl t ht)] at hle
    unfold lexLt
    split_ifs at hle <;> omega

/-- The hypotheses of the preceding theorem hold on sample data, and so does its
conclusion. -/
theorem helper_lexicographic_witness :
    (CoordsInt (⟨0, 1, 5⟩ : source_point ℤ) ∧ CoordsInt (⟨1, 0, 7⟩ : source_point ℤ)) ∧
      ((wrapInt ((⟨0, 1, 5⟩ : source_point ℤ).x - (⟨1, 0, 7⟩ : source_point ℤ).x) =
            (⟨0, 1, 5⟩ : source_point ℤ).x - (⟨1, 0, 7⟩ : source_point ℤ).x ∧
          wrapInt ((⟨0, 1, 5⟩ : source_point ℤ).y - (⟨1, 0, 7⟩ : source_point ℤ).y) =
            (⟨0, 1, 5⟩ : source_point ℤ).y - (⟨1, 0, 7⟩ : source_point ℤ).y) ∧
        (helper (⟨0, 1, 5⟩ : source_point ℤ) ⟨1, 0, 7⟩ < 0 ↔
          lexLt (⟨0, 1, 5⟩ : source_point ℤ).x (⟨0, 1, 5⟩ : source_point ℤ).y
            (⟨1, 0, 7⟩ : source_point ℤ).x (⟨1, 0, 7⟩ : source_point ℤ).y) ∧
        (helper (⟨0, 1, 5⟩ : source_point ℤ) ⟨1, 0, 7⟩ = 0 ↔
          (⟨0, 1, 5⟩ : source_point ℤ).x = (⟨1, 0, 7⟩ : source_point ℤ).x ∧
            (⟨0, 1, 5⟩ : source_point ℤ).y = (⟨1, 0, 7⟩ : source_point ℤ).y) ∧
        (0 < helper (⟨0, 1, 5⟩ : source_point ℤ) ⟨1, 0, 7⟩ ↔
          lexLt (⟨1, 0, 7⟩ : source_point ℤ).x (⟨1, 0, 7⟩ : source_point ℤ).y
            (⟨0, 1, 5⟩ : source_point ℤ).x (⟨0, 1, 5⟩ : source_point ℤ).y) ∧
        (∀ l : List (source_point ℤ), (∀ s ∈ l, CoordsInt s) →
          l.Pairwise (fun s t => helper s t ≤ 0) → SourcesAscending l)) :=
  ⟨⟨by decide, by decide⟩,
    helper_lexicographic (⟨0, 1, 5⟩ : source_point ℤ) ⟨1, 0, 7⟩ (by decide) (by decide)⟩

/-- C17: the last operand of the dimension check asks the line to equal both
separators at once, so it rejects no line at all.  After well-formed positive
dimensions the line `abc` is accepted by the check, although it is no separator (the
`while` loop over the source lines does tell it from one). -/
theorem separator_check_never_rejects :
    (∀ line : String, separatorRejects line = false) ∧
      dimCheckRejects 2 2 2 (some "abc\n") = false ∧
      notSeparator "abc\n" = true := by
  refine ⟨separatorRejects_false, ?_, by decide⟩
  unfold dimCheckRejects
  simp [separatorRejects_false]

end HeatMap
